import Mathlib

/-!
Formal model of the log extractor `extract_data` from `src/app.py` of the
TMC_Data_Ploter repository.

The Python function reads an uploaded file, decodes it as UTF-8, splits it
into lines (keeping the trailing newline, as `io.StringIO(...).readlines()`
does), and runs a single loop over the lines with three regular expressions:

  can_id_pattern      = r'ID:\s*(0x[0-9A-Fa-f]+)'
  data_bytes_pattern  = r'Data Bytes:\s*(.*)'
  measurement_pattern = r'(\w+):\s*(.*)'

Results accumulate in `data = defaultdict(lambda: defaultdict(list))`; the
whole body is wrapped in `try ... except Exception: st.error(...)` and the
function returns `data` in every case.

The model below is a shallow embedding: lines are `List Char`, the raw file
is a `List Nat` of bytes, and the three `re.search` calls are implemented
as explicit leftmost-match scans.  Character classes (`\w`, `\s`) are
modelled on their ASCII fragment, which covers every input considered here.
Python floats are modelled as exact rationals (plus infinities and nan); the
numeric literals appearing in the claims are exactly representable, so no
rounding is involved.
-/

namespace TMC

/-- Value of an ASCII hexadecimal digit; `16` when `c` is not a hex digit. -/
def hexVal (c : Char) : Nat :=
  if '0' ≤ c ∧ c ≤ '9' then c.toNat - 48
  else if 'A' ≤ c ∧ c ≤ 'F' then c.toNat - 55
  else if 'a' ≤ c ∧ c ≤ 'f' then c.toNat - 87
  else 16

/-- The character class `[0-9A-Fa-f]` of `can_id_pattern`. -/
def isHexDigit (c : Char) : Bool := hexVal c < 16

/-- Python regex `\w` (ASCII fragment): letters, digits and underscore. -/
def isWordChar (c : Char) : Bool := c.isAlphanum || c == '_'

/-- Python regex `\s` / `str.split()` / `str.strip()` whitespace (ASCII fragment). -/
def isSpace (c : Char) : Bool :=
  c == ' ' || c == '\t' || c == '\n' || c == '\r' || c == '\x0b' || c == '\x0c'

/-- Strict UTF-8 decoding, as performed by `bytes.decode('utf-8')`:
rejects stray continuation bytes, overlong encodings, surrogates and
code points above `0x10FFFF`. -/
def utf8Decode : List Nat → Option (List Char)
  | [] => some []
  | b :: rest =>
    if b < 128 then
      (utf8Decode rest).map (fun cs => Char.ofNat b :: cs)
    else if 194 ≤ b ∧ b ≤ 223 then
      match rest with
      | c1 :: rest2 =>
        if 128 ≤ c1 ∧ c1 ≤ 191 then
          (utf8Decode rest2).map (fun cs => Char.ofNat ((b - 192) * 64 + (c1 - 128)) :: cs)
        else none
      | [] => none
    else if 224 ≤ b ∧ b ≤ 239 then
      match rest with
      | c1 :: c2 :: rest2 =>
        if 128 ≤ c1 ∧ c1 ≤ 191 ∧ 128 ≤ c2 ∧ c2 ≤ 191 then
          let n := (b - 224) * 4096 + (c1 - 128) * 64 + (c2 - 128)
          if 2048 ≤ n ∧ ¬ (55296 ≤ n ∧ n ≤ 57343) then
            (utf8Decode rest2).map (fun cs => Char.ofNat n :: cs)
          else none
        else none
      | _ => none
    else if 240 ≤ b ∧ b ≤ 244 then
      match rest with
      | c1 :: c2 :: c3 :: rest2 =>
        if 128 ≤ c1 ∧ c1 ≤ 191 ∧ 128 ≤ c2 ∧ c2 ≤ 191 ∧ 128 ≤ c3 ∧ c3 ≤ 191 then
          let n := (b - 240) * 262144 + (c1 - 128) * 4096 + (c2 - 128) * 64 + (c3 - 128)
          if 65536 ≤ n ∧ n ≤ 1114111 then
            (utf8Decode rest2).map (fun cs => Char.ofNat n :: cs)
          else none
        else none
      | _ => none
    else none

/-- `io.StringIO(text).readlines()`: split after each newline, keeping the
newline at the end of each line; a final segment without a newline is kept. -/
def readlines : List Char → List (List Char)
  | [] => []
  | c :: rest =>
      if c = '\n' then ['\n'] :: readlines rest
      else
        match readlines rest with
        | [] => [[c]]
        | line :: ls => (c :: line) :: ls

/-- Tail of `can_id_pattern` after the literal `ID:`: greedy `\s*`, then
`0x`, then one or more hex digits (the captured group, greedy). -/
def idTail (l : List Char) : Option String :=
  match l.dropWhile isSpace with
  | '0' :: 'x' :: rest =>
      let ds := rest.takeWhile isHexDigit
      if ds.isEmpty then none else some ⟨'0' :: 'x' :: ds⟩
  | _ => none

/-- `re.search(can_id_pattern, line)`: leftmost occurrence of `ID:` whose
tail completes the pattern; on failure at one position the scan resumes at
the next character, exactly as `re.search` does. -/
def canIdSearch : List Char → Option String
  | 'I' :: 'D' :: ':' :: tail =>
      match idTail tail with
      | some lit => some lit
      | none => canIdSearch ('D' :: ':' :: tail)
  | _ :: rest => canIdSearch rest
  | [] => none

/-- The group of `\s*(.*)`: skip the greedy whitespace run, then capture the
greedy run of non-newline characters. -/
def dbTail (l : List Char) : List Char :=
  (l.dropWhile isSpace).takeWhile (fun c => c != '\n')

/-- `re.search(data_bytes_pattern, line)`: leftmost occurrence of the
literal `Data Bytes:`; the rest of the pattern always matches. -/
def dataBytesSearch : List Char → Option (List Char)
  | 'D' :: 'a' :: 't' :: 'a' :: ' ' :: 'B' :: 'y' :: 't' :: 'e' :: 's' :: ':' :: tail =>
      some (dbTail tail)
  | _ :: rest => dataBytesSearch rest
  | [] => none

/-- `re.search(measurement_pattern, line)`: leftmost position whose maximal
`\w+` run is followed by `:`; returns the run (group 1) and the `\s*(.*)`
group (group 2).  A position inside a word run whose run is not followed by
a colon fails just like in the regex engine, so scanning one character at a
time is faithful. -/
def measurementSearch : List Char → Option (String × List Char)
  | [] => none
  | c :: rest =>
      if isWordChar c then
        match (c :: rest).dropWhile isWordChar with
        | ':' :: tail => some (⟨(c :: rest).takeWhile isWordChar⟩, dbTail tail)
        | _ => measurementSearch rest
      else measurementSearch rest

/-- Helper for `splitWs`, carrying the current (reversed) token. -/
def splitWsAux (cur : List Char) : List Char → List (List Char)
  | [] => if cur.isEmpty then [] else [cur.reverse]
  | c :: rest =>
      if isSpace c then
        if cur.isEmpty then splitWsAux [] rest
        else cur.reverse :: splitWsAux [] rest
      else splitWsAux (c :: cur) rest

/-- Python `str.split()` with no argument: split on whitespace runs,
discarding empty tokens. -/
def splitWs (l : List Char) : List (List Char) := splitWsAux [] l

/-- Helper for `hexDigitsVal`: remaining digits, where a single underscore
may stand between two hex digits (CPython's rule for `int(s, 16)`). -/
def hexDigitsValAux (acc : Nat) : List Char → Option Nat
  | [] => some acc
  | c :: rest =>
      if isHexDigit c then hexDigitsValAux (acc * 16 + hexVal c) rest
      else if c = '_' then
        match rest with
        | c2 :: rest2 =>
            if isHexDigit c2 then hexDigitsValAux (acc * 16 + hexVal c2) rest2 else none
        | [] => none
      else none

/-- A nonempty run of hex digits with single underscores between digits. -/
def hexDigitsVal : List Char → Option Nat
  | [] => none
  | c :: rest => if isHexDigit c then hexDigitsValAux (hexVal c) rest else none

/-- Python `int(tok, 16)`: optional sign, optional `0x`/`0X` prefix (an
underscore may follow the prefix), then hex digits with single underscores
between digits.  Surrounding-whitespace stripping is omitted because the
tokens fed to it by `extract_data` come from `str.split()` and therefore
contain no whitespace. -/
def pyIntHex (tok : List Char) : Option Int :=
  let sgn : Int := if tok.head? = some '-' then -1 else 1
  let l1 := if tok.head? = some '-' ∨ tok.head? = some '+' then tok.tail else tok
  let l2 :=
    if l1.take 2 = ['0', 'x'] ∨ l1.take 2 = ['0', 'X'] then
      if (l1.drop 2).head? = some '_' then l1.drop 3 else l1.drop 2
    else l1
  (hexDigitsVal l2).map (fun n => sgn * (n : Int))

/-- The list comprehension `[int(b, 16) for b in data_bytes.split()]`:
all-or-nothing, since a single `ValueError` aborts the comprehension. -/
def parseBytes : List (List Char) → Option (List Int)
  | [] => some []
  | t :: ts =>
      match pyIntHex t, parseBytes ts with
      | some n, some ns => some (n :: ns)
      | _, _ => none

/-- A Python float value as far as this model needs it: an exact decimal
`m * 10 ^ ex` (the representation produced by the grammar, not normalized;
`decVal` gives its rational value), an infinity, or nan.  The numeric
strings appearing in the claims denote dyadic rationals that the binary
double represents exactly, so no rounding is involved. -/
inductive PyFloat
  | finite (m ex : Int)
  | inf
  | negInf
  | nan
deriving DecidableEq, Repr

/-- Rational value of the exact decimal `m * 10 ^ ex`. -/
def decVal (m ex : Int) : ℚ := (m : ℚ) * 10 ^ ex

/-- A run of decimal digits with single underscores between digits, starting
at the head of the list; returns the value, the number of digits consumed,
and the remainder of the list. -/
def decRunAux (acc k : Nat) : List Char → Nat × Nat × List Char
  | [] => (acc, k, [])
  | c :: rest =>
      if c.isDigit then decRunAux (acc * 10 + (c.toNat - 48)) (k + 1) rest
      else if c = '_' then
        match rest with
        | c2 :: rest2 =>
            if c2.isDigit then decRunAux (acc * 10 + (c2.toNat - 48)) (k + 1) rest2
            else (acc, k, c :: rest)
        | [] => (acc, k, c :: rest)
      else (acc, k, c :: rest)

/-- Optional fractional digits after the decimal point (a bare point as in
`1.` is accepted by `float`): value, digit count, remainder. -/
def fracPart (r : List Char) : Nat × Nat × List Char :=
  match r with
  | c :: _ => if c.isDigit then decRunAux 0 0 r else (0, 0, r)
  | [] => (0, 0, [])

/-- The mantissa part of the `float` grammar: `digits [. digits]` or
`. digits`; returns the digit string's value as `mantissa` and
`fraction-digit count` (so the value is `mantissa / 10 ^ count`), plus the
remainder of the input. -/
def parseNumber (l : List Char) : Option (Nat × Nat × List Char) :=
  match l with
  | [] => none
  | c :: _ =>
      if c.isDigit then
        let t := decRunAux 0 0 l
        match t.2.2 with
        | '.' :: r2 =>
            let f := fracPart r2
            some (t.1 * 10 ^ f.2.1 + f.1, f.2.1, f.2.2)
        | r1 => some (t.1, 0, r1)
      else if c = '.' then
        match l with
        | _ :: (d :: r2) =>
            if d.isDigit then
              let t := decRunAux 0 0 (d :: r2)
              some (t.1, t.2.1, t.2.2)
            else none
        | _ => none
      else none

/-- Exponent tail after `e`/`E`: optional sign, then decimal digits. -/
def parseExpTail (r : List Char) : Option (Int × List Char) :=
  let sg : Int := if r.head? = some '-' then -1 else 1
  let r1 := if r.head? = some '-' ∨ r.head? = some '+' then r.tail else r
  match r1 with
  | d :: _ =>
      if d.isDigit then
        let t := decRunAux 0 0 r1
        some (sg * (t.1 : Int), t.2.2)
      else none
  | [] => none

/-- The optional exponent of the `float` grammar. -/
def parseExp (l : List Char) : Option (Int × List Char) :=
  match l with
  | 'e' :: r => parseExpTail r
  | 'E' :: r => parseExpTail r
  | _ => none

/-- Case-insensitive comparison against a fixed keyword. -/
def lowerEq (l : List Char) (s : String) : Bool :=
  l.map Char.toLower == s.toList

/-- Python `str.strip()` on both ends (ASCII whitespace fragment). -/
def stripEnds (l : List Char) : List Char :=
  ((l.dropWhile isSpace).reverse.dropWhile isSpace).reverse

/-- Python `float(s)`: strip whitespace, optional sign, then either one of
the keywords `inf`/`infinity`/`nan` (case-insensitive) or a decimal number
with optional fraction and exponent; `none` models the `ValueError`. -/
def pyFloat (s : List Char) : Option PyFloat :=
  let t := stripEnds s
  let neg := t.head? = some '-'
  let u := if t.head? = some '-' ∨ t.head? = some '+' then t.tail else t
  if lowerEq u "inf" ∨ lowerEq u "infinity" then
    some (if neg then PyFloat.negInf else PyFloat.inf)
  else if lowerEq u "nan" then some PyFloat.nan
  else
    match parseNumber u with
    | none => none
    | some (m, f, r1) =>
        let sm : Int := if neg then -(m : Int) else (m : Int)
        match r1 with
        | [] => some (PyFloat.finite sm (-(f : Int)))
        | _ =>
            match parseExp r1 with
            | some (e, []) => some (PyFloat.finite sm (e - (f : Int)))
            | _ => none

/-- Does `l` start with the pattern `p :: ps`? -/
def startsWithL : List Char → List Char → Bool
  | _, [] => true
  | [], _ :: _ => false
  | c :: cs, p :: ps => c == p && startsWithL cs ps

/-- Helper for `replaceFrom`, structurally recursive on a fuel argument so
that it reduces inside the kernel; every step consumes at least one
character of `l`, so `l.length` fuel always suffices (see
`replaceFromAux_fuel`). -/
def replaceFromAux (p : Char) (ps repl : List Char) : Nat → List Char → List Char
  | 0, l => l
  | _ + 1, [] => []
  | fuel + 1, c :: rest =>
      if startsWithL (c :: rest) (p :: ps) then
        repl ++ replaceFromAux p ps repl fuel (rest.drop ps.length)
      else c :: replaceFromAux p ps repl fuel rest

/-- Python `str.replace(pat, repl)` for a nonempty pattern `p :: ps`:
replace every non-overlapping occurrence, scanning left to right. -/
def replaceFrom (p : Char) (ps repl : List Char) (l : List Char) : List Char :=
  replaceFromAux p ps repl l.length l

/-- The unit-stripping chain of line 39 of `app.py`:
`value.replace('A', '').replace('rpm', '').replace('deg', '').replace('Nm', '')`. -/
def stripUnits (v : List Char) : List Char :=
  replaceFrom 'N' ['m'] []
    (replaceFrom 'd' ['e', 'g'] []
      (replaceFrom 'r' ['p', 'm'] []
        (replaceFrom 'A' [] [] v)))

/-- One element of a per-measurement list: a parsed float, the raw string
(when `float` raised `ValueError`), or one decoded byte-vector record. -/
inductive Entry
  | num (x : PyFloat)
  | str (s : String)
  | bytes (l : List Int)
deriving DecidableEq, Repr

/-- The inner `defaultdict(list)`: measurement name to ordered entries,
in insertion order. -/
abbrev Channels := List (String × List Entry)

/-- The outer `defaultdict`: identifier to channels, in insertion order. -/
abbrev Dataset := List (String × Channels)

/-- `data[current_id][key].append(e)` on the inner mapping, including the
auto-vivification performed by `defaultdict(list)`. -/
def appendChan (cs : Channels) (key : String) (e : Entry) : Channels :=
  match cs with
  | [] => [(key, [e])]
  | (k, es) :: rest =>
      if k = key then (k, es ++ [e]) :: rest else (k, es) :: appendChan rest key e

/-- `data[id][key].append(e)` including auto-vivification of both levels. -/
def appendEntry (d : Dataset) (id key : String) (e : Entry) : Dataset :=
  match d with
  | [] => [(id, appendChan [] key e)]
  | (i, cs) :: rest =>
      if i = id then (i, appendChan cs key e) :: rest else (i, cs) :: appendEntry rest id key e

/-- Instance search times out on this nesting depth; the canonical product
instance elaborates directly. -/
instance : DecidableEq (Dataset × Bool) := instDecidableEqProd

/-- Instance search times out on this nesting depth; the canonical product
instance elaborates directly. -/
instance : DecidableEq (Option String × Dataset × Bool) := instDecidableEqProd

/-- Python truthiness of `current_id` in `if bytes_match and current_id:`
an unset identifier and the empty string are falsy (the latter is
unreachable from `extract_data`, kept for fidelity). -/
def truthy : Option String → Bool
  | none => false
  | some s => s != ""

/-- The value stored for a measurement with raw text `raw`: strip unit
suffixes, try `float`, and keep the number on success or the original
untouched string on `ValueError`. -/
def mkEntry (raw : List Char) : Entry :=
  match pyFloat (stripUnits raw) with
  | some x => Entry.num x
  | none => Entry.str ⟨raw⟩

/-- The generic-measurement branch (lines 35-42 of `app.py`): on a match
with a truthy current identifier, append `mkEntry` of the raw value. -/
def stepMeas (cur : Option String) (d : Dataset) (l : List Char) :
    Option String × Dataset × Bool :=
  match measurementSearch l, cur with
  | some (key, raw), some id =>
      if id = "" then (cur, d, false)
      else (cur, appendEntry d id key (mkEntry raw), false)
  | _, _ => (cur, d, false)

/-- One iteration of the `for line in lines` loop: identifier pattern first
(with `continue`), then the byte-vector pattern guarded by a truthy current
identifier, then the generic measurement pattern.  The `Bool` is true when
a `ValueError` escapes the iteration (to be caught by the function's
`except` block); nothing is appended in that case. -/
def stepLine (cur : Option String) (d : Dataset) (l : List Char) :
    Option String × Dataset × Bool :=
  match canIdSearch l with
  | some idLit => (some idLit, d, false)
  | none =>
    match dataBytesSearch l, cur with
    | some rest, some id =>
        if id = "" then stepMeas cur d l
        else
          match parseBytes (splitWs rest) with
          | some vals => (cur, appendEntry d id "Data Bytes" (Entry.bytes vals), false)
          | none => (cur, d, true)
    | _, _ => stepMeas cur d l

/-- The loop of `extract_data`: run `stepLine` over the lines, aborting the
whole loop when an iteration raises (the exception is caught outside the
loop, so the dataset accumulated so far is kept). -/
def processLines (cur : Option String) (d : Dataset) : List (List Char) → Dataset × Bool
  | [] => (d, false)
  | l :: ls =>
      let r := stepLine cur d l
      if r.2.2 then (r.2.1, true) else processLines r.1 r.2.1 ls

/-- `extract_data(file)` on the raw uploaded bytes: decode as UTF-8 (a
failure is caught by the `except` block, reported via `st.error`, and the
still-empty dataset is returned), split into lines, run the loop.  The
`Bool` component records whether the `except` branch ran. -/
def extract_data (bs : List Nat) : Dataset × Bool :=
  match utf8Decode bs with
  | none => ([], true)
  | some cs => processLines none [] (readlines cs)

/-- The lines `extract_data` iterates over (empty when decoding fails). -/
def linesOf (bs : List Nat) : List (List Char) :=
  match utf8Decode bs with
  | none => []
  | some cs => readlines cs

/-- Byte encoding of an ASCII string, for concrete inputs. -/
def asciiBytes (s : String) : List Nat := s.toList.map Char.toNat

/-- The identifiers present in a dataset. -/
def keys (d : Dataset) : List String := d.map Prod.fst

/-- The measurement names present in a dataset (over all identifiers). -/
def measurementNames (d : Dataset) : List String :=
  match d with
  | [] => []
  | p :: rest => p.2.map Prod.fst ++ measurementNames rest

/-- The integers contained in one entry, when it is a byte-vector record. -/
def entryInts : Entry → List Int
  | Entry.bytes l => l
  | _ => []

/-- All integers stored in byte-vector records of one channel list, under
the reserved channel name. -/
def chanIntsList : List (String × List Entry) → List Int
  | [] => []
  | c :: rest =>
      (if c.1 = "Data Bytes" then (c.2.map entryInts).flatten else []) ++ chanIntsList rest

/-- All integers stored in the reserved byte-vector channel of any
identifier of a dataset. -/
def byteVals : Dataset → List Int
  | [] => []
  | p :: rest => chanIntsList p.2 ++ byteVals rest

/-- A plain unsigned hex numeral of at most two digits (no sign, prefix or
underscore). -/
def plainHexLe2 (t : List Char) : Bool :=
  match t with
  | [c] => isHexDigit c
  | [c1, c2] => isHexDigit c1 && isHexDigit c2
  | _ => false

/-- Every token of the line's byte-vector group, if any, is a plain hex
numeral of at most two digits. -/
def lineTokensOk (l : List Char) : Bool :=
  match dataBytesSearch l with
  | some rest => (splitWs rest).all plainHexLe2
  | none => true

/-! Concrete inputs used by the claims. -/

/-- An input whose only line is an identifier line. -/
def idOnlyInput : List Nat := asciiBytes "ID: 0x100\n"

/-- An input with one good measurement line followed by a malformed
byte-vector line. -/
def partialInput : List Nat := asciiBytes "ID: 0x1\nSpeed: 5\nData Bytes: ZZ\n"

/-- An input whose byte-vector line holds a three-digit hex token. -/
def bigByteInput : List Nat := asciiBytes "ID: 0x1\nData Bytes: 100\n"

/-- The unit-stripping example input of the specification. -/
def unitsInput : List Nat :=
  asciiBytes "ID: 0x1\nCurrent: 12.5A\nSpeed: 120rpm\nState: STATUS_OK\n"

/-- An input with two identifier lines differing only in letter case. -/
def caseInput : List Nat := asciiBytes "ID: 0xAB\nX: 1\nID: 0xab\nX: 2\n"

/-- A measurement line that also contains an `ID:` token with a non-hex
identifier. -/
def mixedIdLine : List Char := "Speed: 5 ID: 100\n".toList

/-- A malformed byte-vector line. -/
def zzLine : List Char := "Data Bytes: ZZ\n".toList

/-! Fuel adequacy for `replaceFromAux`. -/

/-- Any fuel of at least `l.length` computes the same result, so
`replaceFrom`'s choice of `l.length` is not a truncation. -/
theorem replaceFromAux_fuel (p : Char) (ps repl : List Char) :
    ∀ (fuel fuel' : Nat) (l : List Char), l.length ≤ fuel → l.length ≤ fuel' →
      replaceFromAux p ps repl fuel l = replaceFromAux p ps repl fuel' l := by
  intro fuel
  induction fuel with
  | zero =>
      intro fuel' l hl _
      have : l = [] := List.length_eq_zero.mp (Nat.le_zero.mp hl)
      subst this
      cases fuel' <;> rfl
  | succ n ih =>
      intro fuel' l hl hl'
      cases l with
      | nil => cases fuel' <;> rfl
      | cons c rest =>
          cases fuel' with
          | zero => cases hl'
          | succ n' =>
              rw [replaceFromAux, replaceFromAux]
              by_cases hs : startsWithL (c :: rest) (p :: ps) = true
              · rw [if_pos hs, if_pos hs]
                have h1 : (rest.drop ps.length).length ≤ n := by
                  simp only [List.length_drop]
                  simp only [List.length_cons] at hl
                  omega
                have h2 : (rest.drop ps.length).length ≤ n' := by
                  simp only [List.length_drop]
                  simp only [List.length_cons] at hl'
                  omega
                rw [ih n' _ h1 h2]
              · rw [if_neg hs, if_neg hs]
                have h1 : rest.length ≤ n := by
                  simp only [List.length_cons] at hl
                  omega
                have h2 : rest.length ≤ n' := by
                  simp only [List.length_cons] at hl'
                  omega
                rw [ih n' _ h1 h2]

/-! Equation lemmas for the branches of `stepMeas` and `stepLine`. -/

theorem stepMeas_no_match (cur : Option String) (d : Dataset) (l : List Char)
    (h : measurementSearch l = none) : stepMeas cur d l = (cur, d, false) := by
  cases cur <;> simp [stepMeas, h]

theorem stepMeas_no_id (d : Dataset) (l : List Char) :
    stepMeas none d l = (none, d, false) := by
  cases h : measurementSearch l <;> simp [stepMeas, h]

theorem stepMeas_empty_id (d : Dataset) (l : List Char) :
    stepMeas (some "") d l = (some "", d, false) := by
  cases h : measurementSearch l with
  | none => simp [stepMeas, h]
  | some pr => obtain ⟨key, raw⟩ := pr; simp [stepMeas, h]

theorem stepMeas_append (d : Dataset) (l : List Char) (key : String) (raw : List Char)
    (id : String) (h : measurementSearch l = some (key, raw)) (hne : id ≠ "") :
    stepMeas (some id) d l = (some id, appendEntry d id key (mkEntry raw), false) := by
  simp [stepMeas, h, hne]

theorem stepLine_id (cur : Option String) (d : Dataset) (l : List Char) (s : String)
    (h : canIdSearch l = some s) : stepLine cur d l = (some s, d, false) := by
  cases cur <;> simp [stepLine, h]

theorem stepLine_no_db (cur : Option String) (d : Dataset) (l : List Char)
    (h1 : canIdSearch l = none) (h2 : dataBytesSearch l = none) :
    stepLine cur d l = stepMeas cur d l := by
  cases cur <;> simp [stepLine, h1, h2]

theorem stepLine_db_no_id (d : Dataset) (l : List Char) (rest : List Char)
    (h1 : canIdSearch l = none) (h2 : dataBytesSearch l = some rest) :
    stepLine none d l = stepMeas none d l := by
  simp [stepLine, h1, h2]

theorem stepLine_db_empty_id (d : Dataset) (l : List Char) (rest : List Char)
    (h1 : canIdSearch l = none) (h2 : dataBytesSearch l = some rest) :
    stepLine (some "") d l = stepMeas (some "") d l := by
  simp [stepLine, h1, h2]

theorem stepLine_db_ok (d : Dataset) (l : List Char) (rest : List Char) (id : String)
    (vals : List Int) (h1 : canIdSearch l = none) (h2 : dataBytesSearch l = some rest)
    (hne : id ≠ "") (h3 : parseBytes (splitWs rest) = some vals) :
    stepLine (some id) d l = (some id, appendEntry d id "Data Bytes" (Entry.bytes vals), false) := by
  simp [stepLine, h1, h2, h3, hne]

theorem stepLine_db_bad (d : Dataset) (l : List Char) (rest : List Char) (id : String)
    (h1 : canIdSearch l = none) (h2 : dataBytesSearch l = some rest)
    (hne : id ≠ "") (h3 : parseBytes (splitWs rest) = none) :
    stepLine (some id) d l = (some id, d, true) := by
  simp [stepLine, h1, h2, h3, hne]

/-- Case analysis on `stepLine` through its branch equations. -/
theorem stepLine_cases (cur : Option String) (d : Dataset) (l : List Char) :
    (∃ s, canIdSearch l = some s ∧ stepLine cur d l = (some s, d, false)) ∨
    (stepLine cur d l = stepMeas cur d l) ∨
    (∃ id rest vals, cur = some id ∧ id ≠ "" ∧ dataBytesSearch l = some rest ∧
      parseBytes (splitWs rest) = some vals ∧
      stepLine cur d l = (some id, appendEntry d id "Data Bytes" (Entry.bytes vals), false)) ∨
    (∃ id rest, cur = some id ∧ id ≠ "" ∧ dataBytesSearch l = some rest ∧
      parseBytes (splitWs rest) = none ∧ stepLine cur d l = (some id, d, true)) := by
  cases h1 : canIdSearch l with
  | some s => exact Or.inl ⟨s, rfl, stepLine_id cur d l s h1⟩
  | none =>
      cases h2 : dataBytesSearch l with
      | none => exact Or.inr (Or.inl (stepLine_no_db cur d l h1 h2))
      | some rest =>
          cases cur with
          | none => exact Or.inr (Or.inl (stepLine_db_no_id d l rest h1 h2))
          | some id =>
              by_cases hne : id = ""
              · subst hne
                exact Or.inr (Or.inl (stepLine_db_empty_id d l rest h1 h2))
              · cases h3 : parseBytes (splitWs rest) with
                | none =>
                    exact Or.inr (Or.inr (Or.inr
                      ⟨id, rest, rfl, hne, rfl, h3, stepLine_db_bad d l rest id h1 h2 hne h3⟩))
                | some vals =>
                    exact Or.inr (Or.inr (Or.inl
                      ⟨id, rest, vals, rfl, hne, rfl, h3,
                        stepLine_db_ok d l rest id vals h1 h2 hne h3⟩))

/-- Case analysis on `stepMeas` through its branch equations. -/
theorem stepMeas_cases (cur : Option String) (d : Dataset) (l : List Char) :
    (stepMeas cur d l = (cur, d, false)) ∨
    (∃ id key raw, cur = some id ∧ id ≠ "" ∧ measurementSearch l = some (key, raw) ∧
      stepMeas cur d l = (some id, appendEntry d id key (mkEntry raw), false)) := by
  cases h : measurementSearch l with
  | none => exact Or.inl (stepMeas_no_match cur d l h)
  | some pr =>
      obtain ⟨key, raw⟩ := pr
      cases cur with
      | none => exact Or.inl (stepMeas_no_id d l)
      | some id =>
          by_cases hne : id = ""
          · subst hne; exact Or.inl (stepMeas_empty_id d l)
          · exact Or.inr ⟨id, key, raw, rfl, hne, rfl, stepMeas_append d l key raw id h hne⟩

/-! Structural lemmas about keys, current identifier, and errors. -/

theorem hexVal_le (c : Char) (h : isHexDigit c = true) : hexVal c ≤ 15 := by
  simp only [isHexDigit, decide_eq_true_eq] at h
  omega

theorem appendEntry_nil (id key : String) (e : Entry) :
    appendEntry [] id key e = [(id, appendChan [] key e)] := rfl

theorem appendEntry_cons_eq (i : String) (cs : Channels) (rest : Dataset)
    (key : String) (e : Entry) :
    appendEntry ((i, cs) :: rest) i key e = (i, appendChan cs key e) :: rest := by
  simp [appendEntry]

theorem appendEntry_cons_ne (i id : String) (cs : Channels) (rest : Dataset)
    (key : String) (e : Entry) (h : i ≠ id) :
    appendEntry ((i, cs) :: rest) id key e = (i, cs) :: appendEntry rest id key e := by
  simp [appendEntry, h]

theorem keys_cons (p : String × Channels) (rest : Dataset) :
    keys (p :: rest) = p.1 :: keys rest := rfl

theorem mem_keys_appendEntry (d : Dataset) (id key : String) (e : Entry) (k : String) :
    k ∈ keys (appendEntry d id key e) → k ∈ keys d ∨ k = id := by
  induction d with
  | nil =>
      intro h
      rw [appendEntry_nil, keys_cons] at h
      rcases List.mem_cons.mp h with h' | h'
      · exact Or.inr h'
      · cases h'
  | cons p rest ih =>
      intro h
      obtain ⟨i, cs⟩ := p
      by_cases hi : i = id
      · subst hi
        rw [appendEntry_cons_eq, keys_cons] at h
        rcases List.mem_cons.mp h with h' | h'
        · exact Or.inl (by rw [keys_cons]; exact List.mem_cons.mpr (Or.inl h'))
        · exact Or.inl (by rw [keys_cons]; exact List.mem_cons.mpr (Or.inr h'))
      · rw [appendEntry_cons_ne _ _ _ _ _ _ hi, keys_cons] at h
        rcases List.mem_cons.mp h with h' | h'
        · exact Or.inl (by rw [keys_cons]; exact List.mem_cons.mpr (Or.inl h'))
        · rcases ih h' with h2 | h2
          · exact Or.inl (by rw [keys_cons]; exact List.mem_cons.mpr (Or.inr h2))
          · exact Or.inr h2

theorem stepLine_keys (cur : Option String) (d : Dataset) (l : List Char) (k : String) :
    k ∈ keys (stepLine cur d l).2.1 → k ∈ keys d ∨ cur = some k := by
  intro h
  rcases stepLine_cases cur d l with ⟨s, _, he⟩ | he | ⟨id, rest, vals, hc, _, _, _, he⟩ |
    ⟨id, rest, hc, _, _, _, he⟩
  · rw [he] at h; exact Or.inl h
  · rw [he] at h
    rcases stepMeas_cases cur d l with hm | ⟨id, key, raw, hc, _, _, hm⟩
    · rw [hm] at h; exact Or.inl h
    · rw [hm] at h
      rcases mem_keys_appendEntry _ _ _ _ _ h with h' | h'
      · exact Or.inl h'
      · subst h'; exact Or.inr hc
  · rw [he] at h
    rcases mem_keys_appendEntry _ _ _ _ _ h with h' | h'
    · exact Or.inl h'
    · subst h'; exact Or.inr hc
  · rw [he] at h; exact Or.inl h

theorem stepLine_cur (cur : Option String) (d : Dataset) (l : List Char) :
    (stepLine cur d l).1 = cur ∨
      ∃ s, canIdSearch l = some s ∧ (stepLine cur d l).1 = some s := by
  rcases stepLine_cases cur d l with ⟨s, hs, he⟩ | he | ⟨id, rest, vals, hc, _, _, _, he⟩ |
    ⟨id, rest, hc, _, _, _, he⟩
  · exact Or.inr ⟨s, hs, by rw [he]⟩
  · rw [he]
    rcases stepMeas_cases cur d l with hm | ⟨id, key, raw, hc, _, _, hm⟩
    · rw [hm]; exact Or.inl rfl
    · rw [hm, hc]; exact Or.inl rfl
  · rw [he, hc]; exact Or.inl rfl
  · rw [he, hc]; exact Or.inl rfl

theorem stepLine_err_keeps (cur : Option String) (d : Dataset) (l : List Char) :
    (stepLine cur d l).2.2 = true → (stepLine cur d l).2.1 = d := by
  intro h
  rcases stepLine_cases cur d l with ⟨s, _, he⟩ | he | ⟨id, rest, vals, _, _, _, _, he⟩ |
    ⟨id, rest, _, _, _, _, he⟩
  · rw [he]
  · rw [he]
    rcases stepMeas_cases cur d l with hm | ⟨id, key, raw, _, _, _, hm⟩
    · rw [hm]
    · rw [he, hm] at h; cases h
  · rw [he] at h; cases h
  · rw [he]

theorem processLines_keys (ls : List (List Char)) :
    ∀ (cur : Option String) (d : Dataset) (k : String),
      k ∈ keys (processLines cur d ls).1 →
      k ∈ keys d ∨ cur = some k ∨ ∃ l ∈ ls, canIdSearch l = some k := by
  induction ls with
  | nil =>
      intro cur d k h
      simp only [processLines] at h
      exact Or.inl h
  | cons l ls ih =>
      intro cur d k h
      rw [processLines] at h
      by_cases herr : (stepLine cur d l).2.2 = true
      · rw [if_pos herr] at h
        rcases stepLine_keys _ _ _ _ h with h' | h' <;> tauto
      · rw [if_neg herr] at h
        rcases ih _ _ _ h with h' | h' | h'
        · rcases stepLine_keys _ _ _ _ h' with h2 | h2 <;> tauto
        · rcases stepLine_cur cur d l with h2 | ⟨s, hs1, hs2⟩
          · rw [h2] at h'; tauto
          · rw [hs2] at h'
            have hsk : s = k := Option.some_inj.mp h'
            subst hsk
            exact Or.inr (Or.inr ⟨l, by simp, hs1⟩)
        · obtain ⟨l', hl', hc⟩ := h'
          exact Or.inr (Or.inr ⟨l', by simp [hl'], hc⟩)

/-! Lemmas about the byte-vector channel contents. -/

theorem pyIntHex_le2 (t : List Char) (ht : plainHexLe2 t = true) (n : Int)
    (hn : pyIntHex t = some n) : 0 ≤ n ∧ n ≤ 255 := by
  match t with
  | [] => simp [plainHexLe2] at ht
  | [c] =>
      simp only [plainHexLe2] at ht
      have hc : hexVal c ≤ 15 := hexVal_le c ht
      have h1 : c ≠ '-' := by intro he; rw [he] at ht; exact absurd ht (by decide)
      have h2 : c ≠ '+' := by intro he; rw [he] at ht; exact absurd ht (by decide)
      simp [pyIntHex, h1, h2, hexDigitsVal, hexDigitsValAux, ht] at hn
      omega
  | [c1, c2] =>
      simp only [plainHexLe2, Bool.and_eq_true] at ht
      obtain ⟨ht1, ht2⟩ := ht
      have hc1 : hexVal c1 ≤ 15 := hexVal_le c1 ht1
      have hc2 : hexVal c2 ≤ 15 := hexVal_le c2 ht2
      have h1 : c1 ≠ '-' := by intro he; rw [he] at ht1; exact absurd ht1 (by decide)
      have h2 : c1 ≠ '+' := by intro he; rw [he] at ht1; exact absurd ht1 (by decide)
      have hx : c2 ≠ 'x' := by intro he; rw [he] at ht2; exact absurd ht2 (by decide)
      have hX : c2 ≠ 'X' := by intro he; rw [he] at ht2; exact absurd ht2 (by decide)
      simp [pyIntHex, h1, h2, hx, hX, hexDigitsVal, hexDigitsValAux, ht1, ht2] at hn
      omega
  | c1 :: c2 :: c3 :: r => simp [plainHexLe2] at ht

theorem parseBytes_mem (ts : List (List Char)) :
    ∀ vals : List Int, parseBytes ts = some vals →
      ∀ n ∈ vals, ∃ t ∈ ts, pyIntHex t = some n := by
  induction ts with
  | nil =>
      intro vals h n hn
      simp only [parseBytes, Option.some.injEq] at h
      subst h
      cases hn
  | cons t ts ih =>
      intro vals h n hn
      rw [parseBytes] at h
      cases hpt : pyIntHex t with
      | none => rw [hpt] at h; cases h
      | some m =>
          rw [hpt] at h
          cases hpb : parseBytes ts with
          | none => rw [hpb] at h; cases h
          | some ns =>
              rw [hpb] at h
              simp only [Option.some.injEq] at h
              subst h
              rcases List.mem_cons.mp hn with hn' | hn'
              · subst hn'; exact ⟨t, by simp, hpt⟩
              · obtain ⟨t', ht', hv⟩ := ih ns hpb n hn'
                exact ⟨t', by simp [ht'], hv⟩

theorem chanIntsList_cons (c : String × List Entry) (rest : Channels) :
    chanIntsList (c :: rest) =
      (if c.1 = "Data Bytes" then (c.2.map entryInts).flatten else []) ++ chanIntsList rest := rfl

theorem mem_chanIntsList_appendChan (cs : Channels) (key : String) (e : Entry) (n : Int) :
    n ∈ chanIntsList (appendChan cs key e) → n ∈ chanIntsList cs ∨ n ∈ entryInts e := by
  induction cs with
  | nil =>
      intro h
      rw [show appendChan [] key e = [(key, [e])] from rfl, chanIntsList_cons] at h
      by_cases hk : key = "Data Bytes"
      · simp [hk, chanIntsList] at h
        exact Or.inr h
      · simp [hk, chanIntsList] at h
  | cons c rest ih =>
      intro h
      obtain ⟨k, es⟩ := c
      by_cases hk : k = key
      · subst hk
        rw [show appendChan ((k, es) :: rest) k e = (k, es ++ [e]) :: rest from by
          simp [appendChan], chanIntsList_cons] at h
        rw [chanIntsList_cons]
        by_cases hdb : k = "Data Bytes"
        · simp only [hdb, if_true, List.map_append, List.flatten_append, List.mem_append] at h ⊢
          rcases h with (h | h) | h
          · exact Or.inl (Or.inl h)
          · simp at h
            exact Or.inr h
          · exact Or.inl (Or.inr h)
        · simp only [hdb, if_false, List.nil_append] at h ⊢
          exact Or.inl h
      · rw [show appendChan ((k, es) :: rest) key e = (k, es) :: appendChan rest key e from by
          simp [appendChan, hk], chanIntsList_cons] at h
        rw [chanIntsList_cons]
        rcases List.mem_append.mp h with h' | h'
        · exact Or.inl (List.mem_append.mpr (Or.inl h'))
        · rcases ih h' with h2 | h2
          · exact Or.inl (List.mem_append.mpr (Or.inr h2))
          · exact Or.inr h2

theorem byteVals_cons (p : String × Channels) (rest : Dataset) :
    byteVals (p :: rest) = chanIntsList p.2 ++ byteVals rest := rfl

theorem mem_byteVals_appendEntry (d : Dataset) (id key : String) (e : Entry) (n : Int) :
    n ∈ byteVals (appendEntry d id key e) → n ∈ byteVals d ∨ n ∈ entryInts e := by
  induction d with
  | nil =>
      intro h
      rw [appendEntry_nil, byteVals_cons] at h
      rcases List.mem_append.mp h with h' | h'
      · rcases mem_chanIntsList_appendChan [] key e n h' with h2 | h2
        · cases h2
        · exact Or.inr h2
      · cases h'
  | cons p rest ih =>
      intro h
      obtain ⟨i, cs⟩ := p
      by_cases hi : i = id
      · subst hi
        rw [appendEntry_cons_eq, byteVals_cons] at h
        rw [byteVals_cons]
        rcases List.mem_append.mp h with h' | h'
        · rcases mem_chanIntsList_appendChan cs key e n h' with h2 | h2
          · exact Or.inl (List.mem_append.mpr (Or.inl h2))
          · exact Or.inr h2
        · exact Or.inl (List.mem_append.mpr (Or.inr h'))
      · rw [appendEntry_cons_ne _ _ _ _ _ _ hi, byteVals_cons] at h
        rw [byteVals_cons]
        rcases List.mem_append.mp h with h' | h'
        · exact Or.inl (List.mem_append.mpr (Or.inl h'))
        · rcases ih h' with h2 | h2
          · exact Or.inl (List.mem_append.mpr (Or.inr h2))
          · exact Or.inr h2

theorem stepLine_byteVals (cur : Option String) (d : Dataset) (l : List Char) (n : Int)
    (hok : lineTokensOk l = true) :
    n ∈ byteVals (stepLine cur d l).2.1 → n ∈ byteVals d ∨ (0 ≤ n ∧ n ≤ 255) := by
  intro h
  rcases stepLine_cases cur d l with ⟨s, _, he⟩ | he | ⟨id, rest, vals, _, _, hdb, hpb, he⟩ |
    ⟨id, rest, _, _, _, _, he⟩
  · rw [he] at h; exact Or.inl h
  · rw [he] at h
    rcases stepMeas_cases cur d l with hm | ⟨id, key, raw, _, _, _, hm⟩
    · rw [hm] at h; exact Or.inl h
    · rw [hm] at h
      rcases mem_byteVals_appendEntry _ _ _ _ _ h with h' | h'
      · exact Or.inl h'
      · rw [mkEntry] at h'
        cases hpf : pyFloat (stripUnits raw) <;> rw [hpf] at h' <;> simp [entryInts] at h'
  · rw [he] at h
    rcases mem_byteVals_appendEntry _ _ _ _ _ h with h' | h'
    · exact Or.inl h'
    · simp only [entryInts] at h'
      obtain ⟨t, ht, hv⟩ := parseBytes_mem _ _ hpb n h'
      have hall : plainHexLe2 t = true := by
        rw [lineTokensOk, hdb] at hok
        exact List.all_eq_true.mp hok t ht
      exact Or.inr (pyIntHex_le2 t hall n hv)
  · rw [he] at h; exact Or.inl h

theorem processLines_byteVals (ls : List (List Char)) :
    ∀ (cur : Option String) (d : Dataset),
      (∀ l ∈ ls, lineTokensOk l = true) →
      ∀ n : Int, n ∈ byteVals (processLines cur d ls).1 →
        n ∈ byteVals d ∨ (0 ≤ n ∧ n ≤ 255) := by
  induction ls with
  | nil =>
      intro cur d _ n h
      simp only [processLines] at h
      exact Or.inl h
  | cons l ls ih =>
      intro cur d hok n h
      rw [processLines] at h
      by_cases herr : (stepLine cur d l).2.2 = true
      · rw [if_pos herr] at h
        exact stepLine_byteVals cur d l n (hok l (by simp)) h
      · rw [if_neg herr] at h
        rcases ih _ _ (fun l' hl' => hok l' (by simp [hl'])) n h with h' | h'
        · exact stepLine_byteVals cur d l n (hok l (by simp)) h'
        · exact Or.inr h'

/-! Lemmas for error propagation. -/

theorem processLines_nil (cur : Option String) (d : Dataset) :
    processLines cur d [] = (d, false) := rfl

theorem processLines_cons (cur : Option String) (d : Dataset) (l : List Char)
    (ls : List (List Char)) :
    processLines cur d (l :: ls) =
      if (stepLine cur d l).2.2 then ((stepLine cur d l).2.1, true)
      else processLines (stepLine cur d l).1 (stepLine cur d l).2.1 ls := rfl

theorem processLines_err_prefix (ls : List (List Char)) :
    ∀ (cur : Option String) (d : Dataset),
      (processLines cur d ls).2 = true →
      ∃ m, processLines cur d (ls.take m) = ((processLines cur d ls).1, false) := by
  induction ls with
  | nil =>
      intro cur d h
      simp [processLines] at h
  | cons l ls ih =>
      intro cur d h
      by_cases herr : (stepLine cur d l).2.2 = true
      · refine ⟨0, ?_⟩
        have hres : processLines cur d (l :: ls) = ((stepLine cur d l).2.1, true) := by
          rw [processLines_cons, if_pos herr]
        rw [List.take_zero, hres, stepLine_err_keeps cur d l herr, processLines_nil]
      · rw [processLines_cons, if_neg herr] at h
        obtain ⟨m, hm⟩ := ih _ _ h
        refine ⟨m + 1, ?_⟩
        rw [List.take_succ_cons, processLines_cons, if_neg herr, hm,
          processLines_cons, if_neg herr]

/-! Equation lemmas for `extract_data` and `linesOf`. -/

theorem extract_data_decode_fail (bs : List Nat) (h : utf8Decode bs = none) :
    extract_data bs = ([], true) := by
  simp [extract_data, h]

theorem extract_data_decode_ok (bs : List Nat) (cs : List Char)
    (h : utf8Decode bs = some cs) :
    extract_data bs = processLines none [] (readlines cs) := by
  simp [extract_data, h]

theorem linesOf_decode_fail (bs : List Nat) (h : utf8Decode bs = none) :
    linesOf bs = [] := by
  simp [linesOf, h]

theorem linesOf_decode_ok (bs : List Nat) (cs : List Char) (h : utf8Decode bs = some cs) :
    linesOf bs = readlines cs := by
  simp [linesOf, h]

/-! Claim theorems. -/

/-- Claim C1, counterexample: `"ID: 0x100\n"` is an identifier line that
captures `0x100`, yet the extractor accepts the input and returns a Dataset
with no key at all — the identifier is absent instead of being mapped to an
empty channel mapping, so the Dataset does not contain exactly the
identifiers that appeared in identifier lines. -/
theorem C1_counterexample :
    canIdSearch ("ID: 0x100\n".toList) = some "0x100" ∧
    extract_data idOnlyInput = ([], false) ∧
    "0x100" ∉ keys (extract_data idOnlyInput).1 := by
  decide

/-- Claim C1, amended: every key of the returned Dataset comes from some
identifier line of the input (soundness), but the converse fails — an
identifier line followed by no measurement or byte-vector line before the
next identifier line (or end of input) contributes no key, because the
auto-vivifying mapping is only touched when a value is appended. -/
theorem C1_keys_from_id_lines (bs : List Nat) (k : String)
    (h : k ∈ keys (extract_data bs).1) :
    ∃ l ∈ linesOf bs, canIdSearch l = some k := by
  cases hdec : utf8Decode bs with
  | none =>
      rw [extract_data_decode_fail bs hdec] at h
      cases h
  | some cs =>
      rw [extract_data_decode_ok bs cs hdec] at h
      rcases processLines_keys _ _ _ _ h with h' | h' | h'
      · cases h'
      · cases h'
      · rw [linesOf_decode_ok bs cs hdec]
        exact h'

/-- Claim C1, witness for the amended theorem at a concrete input. -/
theorem C1_witness :
    "0x1" ∈ keys (extract_data (asciiBytes "ID: 0x1\nA: 2\n")).1 ∧
    ∃ l ∈ linesOf (asciiBytes "ID: 0x1\nA: 2\n"), canIdSearch l = some "0x1" :=
  ⟨by decide, C1_keys_from_id_lines _ _ (by decide)⟩

/-- Claim C2, counterexample: on an input whose third line is the malformed
byte-vector line `Data Bytes: ZZ`, the extraction does abort with an error,
but the returned Dataset still exposes the entry accumulated from the
earlier `Speed: 5` line — it is not free of partial data. -/
theorem C2_counterexample :
    extract_data partialInput =
      ([("0x1", [("Speed", [Entry.num (PyFloat.finite 5 0)])])], true) ∧
    (extract_data partialInput).1 ≠ [] := by
  decide

/-- Claim C2, amended: when a byte-vector line under a set current
identifier has an unparseable token, the whole extraction aborts at that
line and an error is reported, but the returned Dataset contains exactly
the entries accumulated from the lines before the failing line (partial
data is exposed, because `data` is created before the `try` block). -/
theorem C2_abort_keeps_accumulated (cur : Option String) (id : String) (d : Dataset)
    (l : List Char) (ls : List (List Char)) (rest : List Char)
    (hid : canIdSearch l = none) (hcur : cur = some id) (hne : id ≠ "")
    (hdb : dataBytesSearch l = some rest) (hbad : parseBytes (splitWs rest) = none) :
    processLines cur d (l :: ls) = (d, true) := by
  subst hcur
  have hs := stepLine_db_bad d l rest id hid hdb hne hbad
  rw [processLines_cons, hs]
  simp

/-- Claim C2, witness for the amended theorem at a concrete input. -/
theorem C2_witness :
    canIdSearch zzLine = none ∧ dataBytesSearch zzLine = some ("ZZ".toList) ∧
    parseBytes (splitWs ("ZZ".toList)) = none ∧
    processLines (some "0x1") [("0x1", [("Speed", [Entry.num (PyFloat.finite 5 0)])])]
        [zzLine] =
      ([("0x1", [("Speed", [Entry.num (PyFloat.finite 5 0)])])], true) :=
  ⟨by decide, by decide, by decide,
    C2_abort_keeps_accumulated _ "0x1" _ zzLine [] ("ZZ".toList) (by decide) rfl
      (by decide) (by decide) (by decide)⟩

/-- Claim C3, counterexample: the accepted input whose byte-vector line is
`Data Bytes: 100` stores the integer `256` in the reserved channel, because
`int(b, 16)` parses hex numerals of any length; `256` exceeds `255`. -/
theorem C3_counterexample :
    extract_data bigByteInput =
      ([("0x1", [("Data Bytes", [Entry.bytes [256]])])], false) ∧
    (256 : Int) ∈ byteVals (extract_data bigByteInput).1 ∧ ¬ ((256 : Int) ≤ 255) := by
  decide

/-- Claim C3, amended: integers stored in the reserved byte-vector channel
are not bounded by 255 in general; they all lie in 0..255 provided every
token on every byte-vector line of the input is a plain unsigned hex
numeral of at most two digits (no sign, no prefix, no underscore). -/
theorem C3_bytes_range (bs : List Nat) (n : Int)
    (hok : ∀ l ∈ linesOf bs, lineTokensOk l = true)
    (h : n ∈ byteVals (extract_data bs).1) : 0 ≤ n ∧ n ≤ 255 := by
  cases hdec : utf8Decode bs with
  | none =>
      rw [extract_data_decode_fail bs hdec] at h
      cases h
  | some cs =>
      rw [extract_data_decode_ok bs cs hdec] at h
      rw [linesOf_decode_ok bs cs hdec] at hok
      rcases processLines_byteVals _ _ _ hok n h with h' | h'
      · cases h'
      · exact h'

/-- Claim C3, witness for the amended theorem at a concrete input. -/
theorem C3_witness :
    (∀ l ∈ linesOf (asciiBytes "ID: 0x1\nData Bytes: 0A FF\n"), lineTokensOk l = true) ∧
    (10 : Int) ∈ byteVals (extract_data (asciiBytes "ID: 0x1\nData Bytes: 0A FF\n")).1 ∧
    (0 ≤ (10 : Int) ∧ (10 : Int) ≤ 255) :=
  ⟨by decide, by decide,
    C3_bytes_range (asciiBytes "ID: 0x1\nData Bytes: 0A FF\n") 10 (by decide) (by decide)⟩

/-- Claim C4 (confirmed): when the input bytes are not valid UTF-8, the
extraction fails with a reported decode error and the returned Dataset is
empty — no identifier, measurement, or byte-vector entry is present. -/
theorem C4_decode_error_empty (bs : List Nat) (h : utf8Decode bs = none) :
    extract_data bs = ([], true) :=
  extract_data_decode_fail bs h

/-- Claim C4, witness: the single byte `0xFF` is not valid UTF-8. -/
theorem C4_witness :
    utf8Decode [255] = none ∧ extract_data [255] = ([], true) :=
  ⟨by decide, C4_decode_error_empty [255] (by decide)⟩

/-- Claim C5 (confirmed): under a set identifier, `Current: 12.5A` stores
the number 12.5 (mantissa 125, exponent -1), `Speed: 120rpm` stores the
number 120.0, and `State: STATUS_OK` stores the original string
`STATUS_OK` unchanged (the stripped text `STTUS_OK` fails to parse, so the
pre-stripping string is appended). -/
theorem C5_unit_stripping :
    extract_data unitsInput =
      ([("0x1", [("Current", [Entry.num (PyFloat.finite 125 (-1))]),
                 ("Speed", [Entry.num (PyFloat.finite 120 0)]),
                 ("State", [Entry.str "STATUS_OK"])])], false) ∧
    decVal 125 (-1) = 12.5 ∧ decVal 120 0 = 120 := by
  refine ⟨by decide, ?_, ?_⟩ <;> norm_num [decVal]

/-- Claim C6 (confirmed): feeding the byte-vector line
`Data Bytes: 0A 1B FF` while a (truthy) current identifier is set appends
exactly the ordered sequence `[10, 27, 255]` to that identifier's reserved
channel, for any prior dataset. -/
theorem C6_byte_vector_roundtrip (id : String) (h : id ≠ "") (d : Dataset) :
    processLines (some id) d [("Data Bytes: 0A 1B FF\n".toList)] =
      (appendEntry d id "Data Bytes" (Entry.bytes [10, 27, 255]), false) := by
  have hs := stepLine_db_ok d ("Data Bytes: 0A 1B FF\n".toList) ("0A 1B FF".toList) id
    [10, 27, 255] (by decide) (by decide) h (by decide)
  rw [processLines_cons, hs]
  simp [processLines_nil]

/-- Claim C6, witness at a concrete identifier and the empty dataset. -/
theorem C6_witness :
    ("0x7" : String) ≠ "" ∧
    processLines (some "0x7") [] [("Data Bytes: 0A 1B FF\n".toList)] =
      (appendEntry [] "0x7" "Data Bytes" (Entry.bytes [10, 27, 255]), false) :=
  ⟨by decide, C6_byte_vector_roundtrip "0x7" (by decide) []⟩

/-- Claim C7 (confirmed): any line that is not an identifier line — in
particular any measurement or byte-vector line — processed while no
current identifier is set is silently skipped: it raises no error,
produces no entry, and leaves the state unchanged. -/
theorem C7_pre_identifier_skip (l : List Char) (h : canIdSearch l = none)
    (d : Dataset) (ls : List (List Char)) :
    stepLine none d l = (none, d, false) ∧
    processLines none d (l :: ls) = processLines none d ls := by
  have hs : stepLine none d l = (none, d, false) := by
    cases hdb : dataBytesSearch l with
    | none => rw [stepLine_no_db none d l h hdb, stepMeas_no_id]
    | some rest => rw [stepLine_db_no_id d l rest h hdb, stepMeas_no_id]
  refine ⟨hs, ?_⟩
  rw [processLines_cons, hs]
  simp

/-- Claim C7, witness: a measurement line before any identifier line. -/
theorem C7_witness :
    canIdSearch ("Speed: 5\n".toList) = none ∧
    (stepLine none [] ("Speed: 5\n".toList) = (none, [], false) ∧
     processLines none [] [("Speed: 5\n".toList)] = processLines none [] []) :=
  ⟨by decide, C7_pre_identifier_skip ("Speed: 5\n".toList) (by decide) [] []⟩

/-- Claim C8 (confirmed): identifiers are captured verbatim with no case
normalization — an input with identifier lines `0xAB` and `0xab` (each
followed by a measurement) yields two distinct keys. -/
theorem C8_case_preserved :
    extract_data caseInput =
      ([("0xAB", [("X", [Entry.num (PyFloat.finite 1 0)])]),
        ("0xab", [("X", [Entry.num (PyFloat.finite 2 0)])])], false) ∧
    ("0xAB" : String) ≠ "0xab" := by
  decide

/-- Claim C9, counterexample: the line `Speed: 5 ID: 100` contains the
token `ID:` not followed by a 0x-prefixed hex literal, the identifier
pattern indeed fails, and the current identifier is kept — but the generic
measurement pattern appends under `Speed` (the leftmost word token
followed by a colon), not under `ID`, so the claim's appended-name part is
false. -/
theorem C9_counterexample :
    ("ID:".toList ∈ splitWs mixedIdLine) ∧
    canIdSearch mixedIdLine = none ∧
    stepLine (some "0x1") [] mixedIdLine =
      (some "0x1", [("0x1", [("Speed", [Entry.str "5 ID: 100"])])], false) ∧
    "ID" ∉ measurementNames (stepLine (some "0x1") [] mixedIdLine).2.1 := by
  decide

/-- Claim C9, amended: a line on which the identifier pattern fails never
changes the current identifier; and when a (truthy) current identifier is
set, the specific line `ID: 100` is handled by the generic measurement
pattern and appends the number 100.0 under the measurement name `ID` —
but in general the appended name is the line's leftmost word token followed
by a colon, which need not be `ID`. -/
theorem C9_amended :
    (∀ (cur : Option String) (d : Dataset) (l : List Char),
        canIdSearch l = none → (stepLine cur d l).1 = cur) ∧
    (∀ (id : String) (d : Dataset), id ≠ "" →
        stepLine (some id) d ("ID: 100\n".toList) =
          (some id, appendEntry d id "ID" (Entry.num (PyFloat.finite 100 0)), false)) := by
  constructor
  · intro cur d l h
    rcases stepLine_cur cur d l with h' | ⟨s, hs1, _⟩
    · exact h'
    · rw [h] at hs1; cases hs1
  · intro id d hne
    have hm := stepMeas_append d ("ID: 100\n".toList) "ID" ("100".toList) id (by decide) hne
    have hl : stepLine (some id) d ("ID: 100\n".toList) =
        stepMeas (some id) d ("ID: 100\n".toList) :=
      stepLine_no_db _ _ _ (by decide) (by decide)
    rw [hl, hm]
    rw [show mkEntry ("100".toList) = Entry.num (PyFloat.finite 100 0) from by decide]

/-- Claim C9, witness for both parts of the amended theorem. -/
theorem C9_witness :
    canIdSearch ("x: 1\n".toList) = none ∧
    (stepLine (some "0x2") [] ("x: 1\n".toList)).1 = some "0x2" ∧
    stepLine (some "0x2") [] ("ID: 100\n".toList) =
      (some "0x2", appendEntry [] "0x2" "ID" (Entry.num (PyFloat.finite 100 0)), false) :=
  ⟨by decide, C9_amended.1 (some "0x2") [] ("x: 1\n".toList) (by decide),
    C9_amended.2 "0x2" [] (by decide)⟩

/-- Claim C10 (confirmed): the extractor is total in this embedding (every
input maps to a result), and whenever the error branch runs, the returned
Dataset is exactly the one accumulated by error-free processing of some
prefix of the input's lines — decode failure returns the empty prefix's
dataset, a hex failure returns the dataset of the lines before the failing
one. -/
theorem C10_error_returns_prefix (bs : List Nat) (h : (extract_data bs).2 = true) :
    ∃ m, processLines none [] ((linesOf bs).take m) = ((extract_data bs).1, false) := by
  cases hdec : utf8Decode bs with
  | none =>
      rw [extract_data_decode_fail bs hdec, linesOf_decode_fail bs hdec]
      exact ⟨0, rfl⟩
  | some cs =>
      rw [extract_data_decode_ok bs cs hdec] at h ⊢
      rw [linesOf_decode_ok bs cs hdec]
      exact processLines_err_prefix _ _ _ h

/-- Claim C10, witness at an input that fails on its second line. -/
theorem C10_witness :
    (extract_data (asciiBytes "ID: 0x1\nData Bytes: ZZ\n")).2 = true ∧
    ∃ m, processLines none [] ((linesOf (asciiBytes "ID: 0x1\nData Bytes: ZZ\n")).take m) =
      ((extract_data (asciiBytes "ID: 0x1\nData Bytes: ZZ\n")).1, false) :=
  ⟨by decide, C10_error_returns_prefix _ (by decide)⟩

end TMC
